import Mathlib

/-!
Verification development for the `translate` repository: a DOCX
segmentation / checkpointed-translation / reassembly pipeline.

The Python sources are shallowly embedded as executable Lean definitions:
  * `deep_seek_translate_docx.py` → namespace `DeepSeekDocx`
  * `google_translate.py`         → namespace `GoogleTranslate`
  * `split_docx.py`               → namespace `SplitDocx`
  * `merge_docx.py`               → namespace `MergeDocx`

Stateful code (the paragraph-processing loop with its incremental saves
and checkpoint writes) is embedded as explicit state passing over a
`PState` record together with an event trace; fallible calls to the
external translation backend are `Except`-valued functions supplied as
parameters.  Python dicts holding the checkpoint are association lists
from `String` to `Nat` with Python's `get`/`[]`/assignment semantics.
-/

/-! ## Shared basic helpers -/

/-- `startsWithChars pat cs` is true when `pat` is an initial run of `cs`
(character-list version of Python's `str.startswith`). -/
def startsWithChars : List Char → List Char → Bool
  | [], _ => true
  | _ :: _, [] => false
  | p :: ps, c :: cs => p = c && startsWithChars ps cs

/-- Python `str.strip()` on a character list: drop whitespace from both
ends. -/
def stripChars (cs : List Char) : List Char :=
  ((cs.dropWhile Char.isWhitespace).reverse.dropWhile Char.isWhitespace).reverse

/-- Python `str.strip()`. -/
def pyStrip (s : String) : String :=
  String.mk (stripChars s.toList)

/-- A Python dict with string keys and integer values, in insertion order. -/
abbrev Dict := List (String × Nat)

/-- Python `d.get(k, dflt)`. -/
def pyGet (d : Dict) (k : String) (dflt : Nat) : Nat :=
  match d.find? (fun kv => kv.1 = k) with
  | some kv => kv.2
  | none => dflt

/-- Python `d[k]`: `none` models a raised `KeyError`. -/
def pyIndex (d : Dict) (k : String) : Option Nat :=
  (d.find? (fun kv => kv.1 = k)).map (fun kv => kv.2)

/-- Python `d[k] = v`: replace the existing binding, else append. -/
def pySet (d : Dict) (k : String) (v : Nat) : Dict :=
  match d with
  | [] => [(k, v)]
  | kv :: rest => if kv.1 = k then (k, v) :: rest else kv :: pySet rest k v

/-! ## Block model

The pipeline treats a source document as an ordered list of paragraphs.
A run is modelled by the number of `<w:br w:type="page"/>` page-break
marker elements its XML holds; a paragraph carries its runs, its text and
its style name. -/

/-- One run inside a paragraph: `pageBreaks` counts the page-break marker
elements (`<w:br w:type="page"/>`) found in the run's XML. -/
structure DocRun where
  pageBreaks : Nat
deriving DecidableEq, Repr

/-- One paragraph of the source document. -/
structure Paragraph where
  runs : List DocRun
  text : String
  styleName : String
deriving DecidableEq, Repr

/-- Total number of page-break markers held by a paragraph. -/
def pageBreakMarkers (p : Paragraph) : Nat :=
  (p.runs.map DocRun.pageBreaks).sum

namespace DeepSeekDocx

/-- `deep_seek_translate_docx.run_has_page_break` (also identical in
`google_translate.py` and `split_docx.py`): true when the run's XML holds
at least one `<w:br w:type="page"/>` element. -/
def run_has_page_break (r : DocRun) : Bool :=
  decide (0 < r.pageBreaks)

/-- Helper for `assign_page_numbers`: threads the running page counter.
The source loop appends `(page_num, paragraph)` and then scans the runs,
incrementing `page_num` once and `break`ing at the first run that holds a
page break. -/
def assignPageAux (page : Nat) : List Paragraph → List (Nat × Paragraph) × Nat
  | [] => ([], page)
  | p :: rest =>
    let next := if p.runs.any run_has_page_break then page + 1 else page
    let out := assignPageAux next rest
    ((page, p) :: out.1, out.2)

/-- `deep_seek_translate_docx.assign_page_numbers` (lines 61-76; identical
in `google_translate.py` lines 40-55): assigns a page number to each
paragraph, starting at 1, returning the pairs plus the final counter. -/
def assign_page_numbers (doc : List Paragraph) : List (Nat × Paragraph) × Nat :=
  assignPageAux 1 doc

end DeepSeekDocx

namespace SplitDocx

/-- `split_docx.count_page_breaks` (lines 48-60): the number of runs of
the paragraph for which `run_has_page_break` is true. -/
def count_page_breaks (p : Paragraph) : Nat :=
  (p.runs.filter DeepSeekDocx.run_has_page_break).length

end SplitDocx

/-! ## Segmenter -/

namespace DeepSeekDocx

/-- `PAGES_PER_SEGMENT = 5` (`deep_seek_translate_docx.py` line 40,
`google_translate.py` line 28). -/
def PAGES_PER_SEGMENT : Nat := 5

/-- `segment_index = ((page_num - 1) // P) + 1` as computed inside
`group_into_segments`. -/
def segIndex (P p : Nat) : Nat := (p - 1) / P + 1

/-- Python-dict update used by `group_into_segments`: append `x` to the
bucket of key `i`, creating the bucket at the end (insertion order) when
the key is new. -/
def dictAppend (i : Nat) (x : α) : List (Nat × List α) → List (Nat × List α)
  | [] => [(i, [x])]
  | (k, xs) :: rest =>
    if k = i then (k, xs ++ [x]) :: rest
    else (k, xs) :: dictAppend i x rest

/-- Reading a bucket out of the dict (first matching key; `[]` if absent). -/
def bucketOf (i : Nat) : List (Nat × List α) → List α
  | [] => []
  | (k, xs) :: rest => if k = i then xs else bucketOf i rest

/-- `group_into_segments` generalized over the configured pages-per-segment
value `P`; the source fixes `P := PAGES_PER_SEGMENT`.  Mirrors the loop
`for page_num, paragraph in paragraphs_with_page: segments[idx].append(...)`
over a Python dict (insertion-ordered). -/
def groupSegs (P : Nat) (l : List (Nat × Paragraph)) : List (Nat × List (Nat × Paragraph)) :=
  l.foldl (fun segs pb => dictAppend (segIndex P pb.1) pb segs) []

/-- `deep_seek_translate_docx.group_into_segments` (lines 129-141; identical
in `google_translate.py` lines 108-120). -/
def group_into_segments (l : List (Nat × Paragraph)) : List (Nat × List (Nat × Paragraph)) :=
  groupSegs PAGES_PER_SEGMENT l

end DeepSeekDocx

/-! ## Translator Gateway

The external backend is a parameter: `call text` returns `Except.ok body`
for a successful network response and `Except.error e` when the underlying
call raises exception `e`.  For the retry wrapper the backend is indexed
by the (1-based) attempt number. -/

namespace DeepSeekDocx

/-- `deep_seek_translate_docx.translate_text` (lines 143-185): performs one
backend call; the `try/except Exception` converts any raised failure into
the sentinel string `f"[Translation Error: {e}]"`, so the function itself
never raises.  The second component counts network calls made (always 1:
there is no empty-text short-circuit in this variant). -/
def translate_text (call : String → Except String String)
    (text : String) : String × Nat :=
  match call text with
  | Except.ok content => (pyStrip content, 1)
  | Except.error e => ("[Translation Error: " ++ e ++ "]", 1)

/-- `stop_after_attempt(3)` argument of the `@retry` decorator
(`deep_seek_translate_docx.py` line 338, `google_translate.py` line 160). -/
def STOP_AFTER_ATTEMPT : Nat := 3

/-- tenacity `wait_exponential(multiplier, min, max)` evaluated after the
given completed attempt number: `max(min, min(multiplier * 2**attempt, max))`. -/
def wait_exponential (multiplier lo hi attempt : Nat) : Nat :=
  Nat.max lo (Nat.min (multiplier * 2 ^ attempt) hi)

/-- tenacity retry loop: `body k` is attempt number `k`; `Except.error`
means the attempt raised.  While an attempt raises and retries remain
(`remaining`), the loop re-invokes the body; on exhaustion the last
exception propagates.  Returns the outcome together with the number of
attempts actually made. -/
def tenacityGo (body : Nat → Except String String) :
    Nat → Nat → Except String String × Nat
  | attempt, 0 =>
    match body attempt with
    | Except.ok v => (Except.ok v, attempt)
    | Except.error e => (Except.error e, attempt)
  | attempt, r + 1 =>
    match body attempt with
    | Except.ok v => (Except.ok v, attempt)
    | Except.error _ => tenacityGo body (attempt + 1) r

/-- `deep_seek_translate_docx.translate_text_with_retry` (lines 337-340):
`@retry(stop=stop_after_attempt(3), wait=wait_exponential(multiplier=1, min=2, max=10))`
applied to `translate_text`.  tenacity retries only when the wrapped call
raises; `translate_text` catches every backend failure internally and
returns the sentinel, so the body handed to the retry loop is always
`Except.ok`.  Result: decorated outcome plus attempts made. -/
def translate_text_with_retry (backend : Nat → String → Except String String)
    (text : String) : Except String String × Nat :=
  tenacityGo (fun k => Except.ok (translate_text (backend k) text).1)
    1 (STOP_AFTER_ATTEMPT - 1)

end DeepSeekDocx

namespace GoogleTranslate

/-- `google_translate.translate_text` (lines 167-194): empty or
whitespace-only input returns `""` before the backend is consulted
(`if not text.strip(): return ""`); otherwise one backend call is made and
a raised failure becomes the sentinel string.  The second component counts
network calls made. -/
def translate_text (call : String → Except String String)
    (text : String) : String × Nat :=
  if pyStrip text = "" then ("", 0)
  else
    match call text with
    | Except.ok r => (pyStrip r, 1)
    | Except.error e => ("[Translation Error: " ++ e ++ "]", 1)

end GoogleTranslate

/-! ## Incremental writer and paragraph processing

`process_paragraphs` (`deep_seek_translate_docx.py` lines 272-335; the loop
in `google_translate.py` lines 241-281 is structurally identical) is
embedded as a fold over the enumerated paragraphs carrying a `PState`:
the caller's `progress` dict, the writer's `self.progress` dict (loaded by
`RealtimeDocWriter._load_progress` at construction), the on-disk
`PROGRESS_FILE` contents, and an event trace recording translator
invocations, page breaks, document flushes and checkpoint-file writes. -/

/-- Observable events of one processing run. -/
inductive Ev where
  /-- `translate_text_with_retry(client, src_para.text)` invoked for the
  paragraph with this 1-based index. -/
  | translate (idx : Nat) (text : String)
  /-- `writer.add_page_break()`. -/
  | pageBreak
  /-- `writer.save(".temp_output.docx")`: the working document, holding
  every output block appended so far this run (through paragraph `upTo`),
  is durably flushed. -/
  | flushDoc (upTo : Nat)
  /-- `writer.save_progress()`: `PROGRESS_FILE` is overwritten with dict `d`. -/
  | writeCheckpoint (d : Dict)
deriving DecidableEq, Repr

/-- State threaded through the paragraph loop. -/
structure PState where
  /-- the `progress` dict owned by `main` and mutated by the loop -/
  progress : Dict
  /-- `writer.progress`, loaded once by `_load_progress` -/
  writerProgress : Dict
  /-- contents of `translation_progress.json` on disk (`none` = absent) -/
  checkpointFile : Option Dict
  /-- trace of observable events so far -/
  events : List Ev
deriving Repr

namespace DeepSeekDocx

/-- `SAVE_INTERVAL = 5` (line 22 of both translate variants). -/
def SAVE_INTERVAL : Nat := 5

/-- `PAGE_BREAK_INTERVAL = 3` (line 24 / 26). -/
def PAGE_BREAK_INTERVAL : Nat := 3

/-- `PROGRESS_FILE` (line 23 / 25). -/
def PROGRESS_FILE : String := "translation_progress.json"

/-- `src_para.style.name.startswith('Heading')`. -/
def headingStyle (s : String) : Bool :=
  startsWithChars "Heading".toList s.toList

/-- `RealtimeDocWriter._load_progress` (lines 111-116): parse
`PROGRESS_FILE` if readable, else the default dict — note its keys are
`processed_para` / `processed_tables`, not the `paragraph` / `table` keys
used by `main` and the processing loops. -/
def load_progress (file : Option Dict) : Dict :=
  match file with
  | some d => d
  | none => [("processed_para", 0), ("processed_tables", 0)]

/-- Events emitted by one non-skipped iteration of the paragraph loop for
paragraph `para_idx`: the translator call (line 313), the conditional page
break (lines 322-324), and — every `SAVE_INTERVAL` paragraphs — the flush
of the working document followed by `writer.save_progress()`, which writes
`writer.progress` (`wp`) to `PROGRESS_FILE` (lines 326-330). -/
def stepEvents (para_idx : Nat) (src : Paragraph) (wp : Dict) : List Ev :=
  [Ev.translate para_idx src.text]
  ++ (if para_idx % PAGE_BREAK_INTERVAL = 0 || headingStyle src.styleName
      then [Ev.pageBreak] else [])
  ++ (if para_idx % SAVE_INTERVAL = 0
      then [Ev.flushDoc para_idx, Ev.writeCheckpoint wp] else [])

/-- One iteration of the `for para_idx, src_para in enumerate(para_iter, start=1)`
loop (lines 293-335): skip when `para_idx <= progress.get('paragraph', 0)`;
otherwise translate, maybe page-break, and on the save interval flush the
document, set `progress['paragraph'] = para_idx` and write the checkpoint
file with `writer.progress`. -/
def paraStep (st : PState) (ip : Nat × Paragraph) : PState :=
  if ip.1 ≤ pyGet st.progress "paragraph" 0 then st
  else
    { st with
      events := st.events ++ stepEvents ip.1 ip.2 st.writerProgress,
      progress :=
        if ip.1 % SAVE_INTERVAL = 0 then pySet st.progress "paragraph" ip.1
        else st.progress,
      checkpointFile :=
        if ip.1 % SAVE_INTERVAL = 0 then some st.writerProgress
        else st.checkpointFile }

/-- `process_paragraphs(doc, client, writer, progress)`: fold of `paraStep`
over the 1-based enumeration of the document's paragraphs, starting from
`main`'s `progress` dict `progress0`, the writer's loaded dict `wp`, and
the current checkpoint-file contents `file0`. -/
def process_paragraphs (progress0 wp : Dict) (file0 : Option Dict)
    (doc : List Paragraph) : PState :=
  (List.enumFrom 1 doc).foldl paraStep
    { progress := progress0, writerProgress := wp,
      checkpointFile := file0, events := [] }

/-- Outcome of the `try` body of `main` (lines 417-433). -/
inductive RunResult where
  | completed (outPath : String)
  | interrupted (err : String)

/-- The `except`/`finally` epilogue of `main` (lines 434-439): the abort
handler prints the interruption and claims the progress was saved, and the
`finally` block then removes `PROGRESS_FILE` unconditionally whenever it
exists.  Returns the printed messages and the checkpoint-file state after
`main` exits. -/
def main_epilogue (res : RunResult) (checkpointFile : Option Dict) :
    List String × Option Dict :=
  let msgs :=
    match res with
    | RunResult.completed p => ["成功生成翻译文档: " ++ p]
    | RunResult.interrupted e =>
      ["处理中断: " ++ e, "当前进度已保存至 " ++ PROGRESS_FILE]
  -- finally: if os.path.exists(PROGRESS_FILE): os.remove(PROGRESS_FILE)
  let fileAfter : Option Dict :=
    match checkpointFile with
    | some _ => none
    | none => none
  (msgs, fileAfter)

end DeepSeekDocx

/-! ## Merger (`merge_docx.py`) -/

/-- One per-segment output artifact: its file path and its document body,
an ordered list of opaque structural elements. -/
structure Artifact (α : Type) where
  path : String
  body : List α
deriving DecidableEq, Repr

/-- An element of the merged document: either a structural element copied
from an artifact or an inserted page break. -/
inductive MergedElem (α : Type) where
  | content (e : α)
  | pageBreak
deriving DecidableEq, Repr

/-- True exactly on the inserted page breaks. -/
def MergedElem.isPageBreakElem : MergedElem α → Bool
  | MergedElem.pageBreak => true
  | MergedElem.content _ => false

namespace MergeDocx

/-- `os.path.basename`: the part of the path after the last `/`. -/
def basename (s : String) : String :=
  String.mk ((s.toList.reverse.takeWhile (fun c => c ≠ '/')).reverse)

/-- Try to consume the literal `tag` from the front of `cs`. -/
def dropLit : List Char → List Char → Option (List Char)
  | [], cs => some cs
  | _ :: _, [] => none
  | t :: ts, c :: cs => if c = t then dropLit ts cs else none

/-- Decimal value of a digit list. -/
def digitsVal (ds : List Char) : Nat :=
  ds.foldl (fun a c => a * 10 + (c.toNat - 48)) 0

/-- `re.search(r'page-(\d+)_translated', base)`: scan for the leftmost
position where the literal `page-`, a nonempty digit run, and the literal
`_translated` occur in sequence; return the digit run's value.  (Greedy
`\d+` takes the maximal digit run: any shorter run would be followed by a
digit, which cannot begin `_translated`.) -/
def pageSearch : List Char → Option Nat
  | [] => none
  | c :: cs =>
    match dropLit "page-".toList (c :: cs) with
    | some rest =>
      let ds := rest.takeWhile Char.isDigit
      let tl := rest.dropWhile Char.isDigit
      if ds ≠ [] ∧ (dropLit "_translated".toList tl).isSome
      then some (digitsVal ds)
      else pageSearch cs
    | none => pageSearch cs

/-- `merge_docx.get_page_number` (lines 8-15): the extracted page number,
or `0` when the token is missing or unparseable. -/
def get_page_number (path : String) : Nat :=
  match pageSearch (basename path).toList with
  | some n => n
  | none => 0

/-- Stable insertion into a key-sorted list: the new element goes after
every element whose key is less than or equal to its own. -/
def insertByKey (key : α → Nat) (x : α) : List α → List α
  | [] => [x]
  | y :: ys => if key y ≤ key x then y :: insertByKey key x ys else x :: y :: ys

/-- Stable ascending sort by an integer key, modelling Python's
`sorted(files, key=get_page_number)`. -/
def sortByKey (key : α → Nat) : List α → List α
  | [] => []
  | x :: xs => insertByKey key x (sortByKey key xs)

/-- `docx_files = sorted(docx_files, key=get_page_number)` (line 52). -/
def sortFiles (files : List (Artifact α)) : List (Artifact α) :=
  sortByKey (fun f => get_page_number f.path) files

/-- `merge_docx.merge_docx` (lines 17-35): append every body element of
each file in order, inserting one page break between consecutive files
(`if idx < len(files) - 1`) but none after the last. -/
def merge_docx : List (Artifact α) → List (MergedElem α)
  | [] => []
  | [f] => f.body.map MergedElem.content
  | f :: g :: rest =>
    f.body.map MergedElem.content ++ MergedElem.pageBreak :: merge_docx (g :: rest)

/-- `merge_docx.main` (lines 37-55): with zero matching artifacts, report
and `sys.exit(1)` with no output written; otherwise sort and merge.
`Except.error` carries the process exit code. -/
def main (docx_files : List (Artifact α)) : Except Nat (List (MergedElem α)) :=
  if docx_files.isEmpty then Except.error 1
  else Except.ok (merge_docx (sortFiles docx_files))

end MergeDocx

/-! ## Spec-side predicates -/

/-- The §4.4/§3 persistence-ordering property over an event trace: every
checkpoint-file write is immediately preceded by a durable flush of the
working document, and the paragraph offset the written checkpoint records
is at most the offset that flush covered. -/
def FlushBeforeCheckpoint (l : List Ev) : Prop :=
  ∀ i d, l.get? i = some (Ev.writeCheckpoint d) →
    ∃ j n, i = j + 1 ∧ l.get? j = some (Ev.flushDoc n) ∧ pyGet d "paragraph" 0 ≤ n

/-- Invariant of `RealtimeDocWriter` during a processing run: the writer's
`self.progress` dict still holds what `_load_progress` returned, and every
checkpoint-file write so far carried exactly those contents. -/
def WriterProgressStable (wp : Dict) (st : PState) : Prop :=
  st.writerProgress = wp
  ∧ ∀ d, Ev.writeCheckpoint d ∈ st.events → d = wp

/-! ## Concrete demonstration inputs -/

/-- A break-free body paragraph with the given text. -/
def plainPara (t : String) : Paragraph :=
  { runs := [], text := t, styleName := "Normal" }

/-- A 12-paragraph source document with texts `t1` … `t12`. -/
def demoDoc : List Paragraph :=
  (List.range 12).map (fun i => plainPara ("t" ++ toString (i + 1)))

/-- The fresh `progress` dict created by `main` when no checkpoint file
exists (`{'paragraph': 0, 'table': 0}`). -/
def freshProgress : Dict := [("paragraph", 0), ("table", 0)]

/-- Crash simulation, phase 1: a fresh run (no checkpoint file on disk)
killed immediately after the flush at paragraph 10, i.e. only the first
10 paragraphs were processed before the kill. -/
def demoPhase1 : PState :=
  DeepSeekDocx.process_paragraphs freshProgress (DeepSeekDocx.load_progress none)
    none (demoDoc.take 10)

/-- The checkpoint file left on disk by the kill (the `finally` cleanup
does not run on a hard kill). -/
def demoKilledFile : Option Dict := demoPhase1.checkpointFile

/-- Crash simulation, phase 2: the restarted run.  `main` parses the
surviving checkpoint file into its `progress` dict and the new writer
loads the same file. -/
def demoPhase2 : PState :=
  DeepSeekDocx.process_paragraphs (DeepSeekDocx.load_progress demoKilledFile)
    (DeepSeekDocx.load_progress demoKilledFile) demoKilledFile demoDoc

/-- A block holding two page-break markers, one in each of its two runs. -/
def twoBreakPara : Paragraph :=
  { runs := [{ pageBreaks := 1 }, { pageBreaks := 1 }], text := "a", styleName := "Normal" }

/-- A break-free successor block. -/
def afterBreaksPara : Paragraph :=
  { runs := [], text := "b", styleName := "Normal" }

/-- A paginated block list (non-decreasing page numbers 1, 1, 6) used to
instantiate the Segmenter theorem. -/
def demoPaginated : List (Nat × Paragraph) :=
  [(1, plainPara "x"), (1, plainPara "y"), (6, plainPara "z")]

/-- Four artifacts, in scrambled submission order, with page tokens
10, 2, 1 and one unparseable name. -/
def demoArts : List (Artifact Nat) :=
  [ { path := "page-10_translated_46-50.docx", body := [100] }
  , { path := "page-2_translated_6-10.docx", body := [20] }
  , { path := "out/page-1_translated_1-5.docx", body := [10] }
  , { path := "misc.docx", body := [0] } ]

/-! # Theorems

## Paginator lemmas -/

namespace DeepSeekDocx

theorem assignPageAux_spec (doc : List Paragraph) : ∀ page : Nat,
    ((assignPageAux page doc).1.map Prod.snd = doc)
    ∧ (((assignPageAux page doc).1.map Prod.fst).head? = doc.head?.map (fun _ => page))
    ∧ ((assignPageAux page doc).1.Chain' (fun a b =>
        b.1 = a.1 + (if a.2.runs.any run_has_page_break then 1 else 0))) := by
  induction doc with
  | nil => intro page; exact ⟨rfl, rfl, List.chain'_nil⟩
  | cons p rest ih =>
    intro page
    obtain ⟨h1, h2, h3⟩ := ih (if p.runs.any run_has_page_break then page + 1 else page)
    refine ⟨by simpa [assignPageAux] using h1, by simp [assignPageAux], ?_⟩
    rw [show (assignPageAux page (p :: rest)).1
        = (page, p) :: (assignPageAux
            (if p.runs.any run_has_page_break then page + 1 else page) rest).1 from rfl]
    rw [List.chain'_cons']
    refine ⟨?_, h3⟩
    intro b hb
    have hfst : ((assignPageAux
        (if p.runs.any run_has_page_break then page + 1 else page) rest).1.map
          Prod.fst).head? = rest.head?.map (fun _ =>
            if p.runs.any run_has_page_break then page + 1 else page) := h2
    rw [List.head?_map] at hfst
    rw [hb] at hfst
    cases hr : rest.head? with
    | none => rw [hr] at hfst; simp at hfst
    | some q =>
      rw [hr] at hfst
      simp only [Option.map_some'] at hfst
      have hb1 : b.1 = if p.runs.any run_has_page_break then page + 1 else page :=
        Option.some.inj hfst
      simp only [hb1]
      split <;> simp

end DeepSeekDocx

/-- C5 (counterexample): a block holding two page-break markers (one per
run, so `split_docx.count_page_breaks` also reports 2) is followed by a
block whose page number is 2, not 1 + 2 = 3 as the claim requires: the
paginator's run scan `break`s at the first page-breaking run and
increments by at most 1 per block. -/
theorem claim_C5_counterexample :
    pageBreakMarkers twoBreakPara = 2
    ∧ SplitDocx.count_page_breaks twoBreakPara = 2
    ∧ (DeepSeekDocx.assign_page_numbers [twoBreakPara, afterBreaksPara]).1.map Prod.fst
        = [1, 2]
    ∧ ([1, 2] : List Nat) ≠ [1, 1 + 2] := by
  refine ⟨rfl, rfl, rfl, by decide⟩

/-- C5 (amended): the Paginator assigns page numbers starting at 1, drops
and reorders no block, and increments the running counter — effective for
the next block — by exactly 1 when the current block contains at least one
page-break marker and by 0 otherwise, regardless of how many markers the
block contains. -/
theorem claim_C5_amended (doc : List Paragraph) :
    ((DeepSeekDocx.assign_page_numbers doc).1.map Prod.snd = doc)
    ∧ (((DeepSeekDocx.assign_page_numbers doc).1.map Prod.fst).head?
        = doc.head?.map (fun _ => 1))
    ∧ ((DeepSeekDocx.assign_page_numbers doc).1.Chain' (fun a b =>
        b.1 = a.1 + (if a.2.runs.any DeepSeekDocx.run_has_page_break then 1 else 0))) :=
  DeepSeekDocx.assignPageAux_spec doc 1

/-! ## Segmenter lemmas -/

namespace DeepSeekDocx

theorem segIndex_mono (P : Nat) {p q : Nat} (h : p ≤ q) :
    segIndex P p ≤ segIndex P q :=
  Nat.add_le_add_right (Nat.div_le_div_right (Nat.sub_le_sub_right h 1)) 1

theorem groupSegs_append (P : Nat) (l : List (Nat × Paragraph)) (x : Nat × Paragraph) :
    groupSegs P (l ++ [x]) = dictAppend (segIndex P x.1) x (groupSegs P l) := by
  simp [groupSegs, List.foldl_append]

theorem bucketOf_dictAppend (i j : Nat) (x : α) (s : List (Nat × List α)) :
    bucketOf j (dictAppend i x s) =
      if j = i then bucketOf j s ++ [x] else bucketOf j s := by
  induction s with
  | nil =>
    by_cases h : j = i
    · simp [dictAppend, bucketOf, h]
    · simp [dictAppend, bucketOf, h, Ne.symm h]
  | cons kxs rest ih =>
    obtain ⟨k, xs⟩ := kxs
    by_cases hk : k = i
    · by_cases hj : j = i
      · simp [dictAppend, bucketOf, hk, hj, hk.trans hj.symm]
      · have hkj : ¬ k = j := fun hh => hj (hh ▸ hk)
        simp [dictAppend, bucketOf, hk, hj, hkj, Ne.symm hj]
    · by_cases hj : k = j
      · have hji : ¬ j = i := fun hh => hk (hj.trans hh)
        simp [dictAppend, bucketOf, hk, hj, hji]
      · simp [dictAppend, bucketOf, hk, hj, ih]

theorem flatten_dictAppend (i : Nat) (x : α) (s : List (Nat × List α)) :
    ((dictAppend i x s).map Prod.snd).flatten.Perm
      ((s.map Prod.snd).flatten ++ [x]) := by
  induction s with
  | nil => simp [dictAppend]
  | cons kxs rest ih =>
    obtain ⟨k, xs⟩ := kxs
    by_cases hk : k = i
    · subst hk
      have hd : dictAppend k x ((k, xs) :: rest) = (k, xs ++ [x]) :: rest := by
        simp [dictAppend]
      rw [hd, List.map_cons, List.flatten_cons, List.map_cons, List.flatten_cons,
        List.append_assoc, List.append_assoc]
      exact List.Perm.append_left xs List.perm_append_comm
    · have hd : dictAppend i x ((k, xs) :: rest) = (k, xs) :: dictAppend i x rest := by
        simp [dictAppend, hk]
      rw [hd, List.map_cons, List.flatten_cons, List.map_cons, List.flatten_cons,
        List.append_assoc]
      exact List.Perm.append_left xs ih

theorem dictAppend_entries (i : Nat) (x : α) (s : List (Nat × List α))
    (Q : α → Nat → Prop)
    (hs : ∀ e ∈ s, ∀ y ∈ e.2, Q y e.1) (hx : Q x i) :
    ∀ e ∈ dictAppend i x s, ∀ y ∈ e.2, Q y e.1 := by
  induction s with
  | nil =>
    intro e he y hy
    simp only [dictAppend, List.mem_singleton] at he
    subst he
    simp only [List.mem_singleton] at hy
    subst hy
    exact hx
  | cons kxs rest ih =>
    obtain ⟨k, xs⟩ := kxs
    intro e he y hy
    by_cases hk : k = i
    · rw [dictAppend, if_pos hk] at he
      rcases List.mem_cons.1 he with he | he
      · subst he
        rcases List.mem_append.1 hy with hy | hy
        · exact hs (k, xs) (List.mem_cons_self _ _) y hy
        · rcases List.mem_singleton.1 hy with rfl
          exact hk ▸ hx
      · exact hs e (List.mem_cons_of_mem _ he) y hy
    · rw [dictAppend, if_neg hk] at he
      rcases List.mem_cons.1 he with he | he
      · subst he
        exact hs (k, xs) (List.mem_cons_self _ _) y hy
      · exact ih (fun e' he' => hs e' (List.mem_cons_of_mem _ he')) e he y hy

theorem keys_dictAppend (i : Nat) (x : α) (s : List (Nat × List α)) :
    (dictAppend i x s).map Prod.fst =
      if i ∈ s.map Prod.fst then s.map Prod.fst else s.map Prod.fst ++ [i] := by
  induction s with
  | nil => simp [dictAppend]
  | cons kxs rest ih =>
    obtain ⟨k, xs⟩ := kxs
    by_cases hk : k = i
    · simp [dictAppend, hk]
    · have hik : ¬ i = k := fun hh => hk hh.symm
      by_cases hmem : i ∈ rest.map Prod.fst
      · simp [dictAppend, hk, hik, hmem, ih]
      · simp [dictAppend, hk, hik, hmem, ih]

end DeepSeekDocx

namespace DeepSeekDocx

theorem keys_groupSegs_mem (P : Nat) (l : List (Nat × Paragraph)) :
    ∀ k ∈ (groupSegs P l).map Prod.fst, ∃ pb ∈ l, segIndex P pb.1 = k := by
  induction l using List.reverseRecOn with
  | nil => intro k hk; simp [groupSegs] at hk
  | append_singleton l x ih =>
    intro k hk
    rw [groupSegs_append, keys_dictAppend] at hk
    by_cases hmem : segIndex P x.1 ∈ (groupSegs P l).map Prod.fst
    · rw [if_pos hmem] at hk
      obtain ⟨pb, hpb, hseg⟩ := ih k hk
      exact ⟨pb, by simp [hpb], hseg⟩
    · rw [if_neg hmem] at hk
      rcases List.mem_append.1 hk with hk | hk
      · obtain ⟨pb, hpb, hseg⟩ := ih k hk
        exact ⟨pb, by simp [hpb], hseg⟩
      · rcases List.mem_singleton.1 hk with rfl
        exact ⟨x, by simp, rfl⟩

theorem keys_groupSegs_sorted (P : Nat) (l : List (Nat × Paragraph))
    (h : l.Pairwise (fun a b => a.1 ≤ b.1)) :
    ((groupSegs P l).map Prod.fst).Pairwise (fun a b => a < b) := by
  induction l using List.reverseRecOn with
  | nil => simp [groupSegs]
  | append_singleton l x ih =>
    rw [List.pairwise_append] at h
    obtain ⟨hl, _, hcross⟩ := h
    rw [groupSegs_append, keys_dictAppend]
    by_cases hmem : segIndex P x.1 ∈ (groupSegs P l).map Prod.fst
    · rw [if_pos hmem]; exact ih hl
    · rw [if_neg hmem]
      rw [List.pairwise_append]
      refine ⟨ih hl, List.pairwise_singleton _ _, ?_⟩
      intro k hk b hb
      rcases List.mem_singleton.1 hb with rfl
      obtain ⟨pb, hpb, hseg⟩ := keys_groupSegs_mem P l k hk
      have hle : k ≤ segIndex P x.1 := by
        rw [← hseg]
        exact segIndex_mono P (hcross pb hpb x (by simp))
      have hne : k ≠ segIndex P x.1 := fun hh => hmem (hh ▸ hk)
      exact lt_of_le_of_ne hle hne

theorem bucketOf_groupSegs (P : Nat) (l : List (Nat × Paragraph)) (s : Nat) :
    bucketOf s (groupSegs P l)
      = l.filter (fun pb => decide (segIndex P pb.1 = s)) := by
  induction l using List.reverseRecOn with
  | nil => simp [groupSegs, bucketOf]
  | append_singleton l x ih =>
    rw [groupSegs_append, bucketOf_dictAppend, List.filter_append]
    by_cases hs : s = segIndex P x.1
    · rw [if_pos hs, ih]
      simp [hs.symm]
    · rw [if_neg hs, ih]
      simp [Ne.symm hs]

theorem flatten_groupSegs (P : Nat) (l : List (Nat × Paragraph)) :
    ((groupSegs P l).map Prod.snd).flatten.Perm l := by
  induction l using List.reverseRecOn with
  | nil => simp [groupSegs]
  | append_singleton l x ih =>
    rw [groupSegs_append]
    exact (flatten_dictAppend _ x (groupSegs P l)).trans (ih.append_right [x])

theorem entries_groupSegs (P : Nat) (l : List (Nat × Paragraph)) :
    ∀ e ∈ groupSegs P l, ∀ pb ∈ e.2, e.1 = segIndex P pb.1 := by
  induction l using List.reverseRecOn with
  | nil => intro e he; simp [groupSegs] at he
  | append_singleton l x ih =>
    rw [groupSegs_append]
    intro e he pb hpb
    exact dictAppend_entries _ x _ (fun y k => k = segIndex P y.1) ih rfl e he pb hpb

theorem groupSegs_all_ones_aux (P : Nat) :
    ∀ (l acc : List (Nat × Paragraph)), (∀ pb ∈ l, pb.1 = 1) →
      l.foldl (fun segs pb => dictAppend (segIndex P pb.1) pb segs) [(1, acc)]
        = [(1, acc ++ l)] := by
  intro l
  induction l with
  | nil => intro acc _; simp
  | cons x rest ih =>
    intro acc hall
    have hx : x.1 = 1 := hall x (by simp)
    have hseg : segIndex P x.1 = 1 := by
      rw [hx]; simp [segIndex]
    have hstep : dictAppend (segIndex P x.1) x [(1, acc)] = [(1, acc ++ [x])] := by
      rw [hseg]; simp [dictAppend]
    rw [List.foldl_cons, hstep, ih (acc ++ [x]) (fun pb hpb => hall pb (by simp [hpb]))]
    simp

theorem groupSegs_all_ones (P : Nat) (l : List (Nat × Paragraph))
    (hne : l ≠ []) (hall : ∀ pb ∈ l, pb.1 = 1) :
    groupSegs P l = [(1, l)] := by
  cases l with
  | nil => exact absurd rfl hne
  | cons x rest =>
    have hx : x.1 = 1 := hall x (by simp)
    have hseg : segIndex P x.1 = 1 := by
      rw [hx]; simp [segIndex]
    have hstep : dictAppend (segIndex P x.1) x [] = [(1, [x])] := by
      rw [hseg]; simp [dictAppend]
    show (x :: rest).foldl (fun segs pb => dictAppend (segIndex P pb.1) pb segs) []
      = [(1, x :: rest)]
    rw [List.foldl_cons, hstep,
      groupSegs_all_ones_aux P rest [x] (fun pb hpb => hall pb (by simp [hpb]))]
    simp

theorem assignPageAux_no_breaks :
    ∀ (doc : List Paragraph), (∀ p ∈ doc, ∀ r ∈ p.runs, r.pageBreaks = 0) →
      ∀ n, (assignPageAux n doc).1 = doc.map (fun p => (n, p)) := by
  intro doc
  induction doc with
  | nil => intro _ n; rfl
  | cons p rest ih =>
    intro h n
    have hany : p.runs.any run_has_page_break = false := by
      rw [List.any_eq_false]
      intro r hr
      simp [run_has_page_break, h p (by simp) r hr]
    simp only [assignPageAux, hany, Bool.false_eq_true, if_false, List.map_cons]
    rw [ih (fun q hq => h q (by simp [hq])) n]

end DeepSeekDocx

/-- C6: the Segmenter buckets each block with page number `p` into segment
`(p-1)/P + 1`; each bucket is the in-order sublist of its blocks (arrival
order preserved); the buckets' concatenation is a permutation of the input
(no block duplicated or dropped); for paginated input (non-decreasing page
numbers) the segments appear in strictly ascending segment-index order;
empty input yields zero segments; a document with no page-break markers
yields exactly one segment; and the source instantiates the configured
pages-per-segment value at `PAGES_PER_SEGMENT = 5`. -/
theorem claim_C6 (P : Nat) (l : List (Nat × Paragraph)) :
    (∀ s, DeepSeekDocx.bucketOf s (DeepSeekDocx.groupSegs P l)
        = l.filter (fun pb => decide (DeepSeekDocx.segIndex P pb.1 = s)))
    ∧ ((DeepSeekDocx.groupSegs P l).map Prod.snd).flatten.Perm l
    ∧ (∀ e ∈ DeepSeekDocx.groupSegs P l, ∀ pb ∈ e.2,
        e.1 = DeepSeekDocx.segIndex P pb.1)
    ∧ (l.Pairwise (fun a b => a.1 ≤ b.1) →
        ((DeepSeekDocx.groupSegs P l).map Prod.fst).Pairwise (fun a b => a < b))
    ∧ DeepSeekDocx.groupSegs P ([] : List (Nat × Paragraph)) = []
    ∧ (∀ doc : List Paragraph, doc ≠ [] →
        (∀ p ∈ doc, ∀ r ∈ p.runs, r.pageBreaks = 0) →
        DeepSeekDocx.group_into_segments (DeepSeekDocx.assign_page_numbers doc).1
          = [(1, (DeepSeekDocx.assign_page_numbers doc).1)])
    ∧ DeepSeekDocx.group_into_segments l
        = DeepSeekDocx.groupSegs DeepSeekDocx.PAGES_PER_SEGMENT l
    ∧ DeepSeekDocx.PAGES_PER_SEGMENT = 5 := by
  refine ⟨DeepSeekDocx.bucketOf_groupSegs P l,
    DeepSeekDocx.flatten_groupSegs P l,
    DeepSeekDocx.entries_groupSegs P l,
    DeepSeekDocx.keys_groupSegs_sorted P l,
    rfl, ?_, rfl, rfl⟩
  intro doc hne hnb
  have hpages : (DeepSeekDocx.assign_page_numbers doc).1
      = doc.map (fun p => (1, p)) :=
    DeepSeekDocx.assignPageAux_no_breaks doc hnb 1
  have hne' : (DeepSeekDocx.assign_page_numbers doc).1 ≠ [] := by
    rw [hpages]
    simpa using hne
  have hall : ∀ pb ∈ (DeepSeekDocx.assign_page_numbers doc).1, pb.1 = 1 := by
    rw [hpages]
    intro pb hpb
    obtain ⟨p, _, rfl⟩ := List.mem_map.1 hpb
    rfl
  exact DeepSeekDocx.groupSegs_all_ones _ _ hne' hall

/-- C6 witness: the Segmenter theorem applied to the concrete paginated
list `demoPaginated` (pages 1, 1, 6 with `P = 5`), discharging the
monotonicity and no-break hypotheses on concrete inputs. -/
theorem claim_C6_witness :
    DeepSeekDocx.bucketOf 1 (DeepSeekDocx.groupSegs 5 demoPaginated)
      = [(1, plainPara "x"), (1, plainPara "y")]
    ∧ ((DeepSeekDocx.groupSegs 5 demoPaginated).map Prod.fst).Pairwise
        (fun a b => a < b)
    ∧ DeepSeekDocx.group_into_segments
        (DeepSeekDocx.assign_page_numbers [plainPara "w"]).1
      = [(1, (DeepSeekDocx.assign_page_numbers [plainPara "w"]).1)] := by
  refine ⟨?_, (claim_C6 5 demoPaginated).2.2.2.1 (by decide), ?_⟩
  · rw [(claim_C6 5 demoPaginated).1 1]
    decide
  · exact (claim_C6 5 demoPaginated).2.2.2.2.2.1 [plainPara "w"] (by decide)
      (by intro p hp r hr; simp [plainPara] at hp; subst hp; simp [plainPara] at hr)

/-! ## Incremental-writer lemmas -/

theorem pyGet_pySet_self (d : Dict) (k : String) (v dflt : Nat) :
    pyGet (pySet d k v) k dflt = v := by
  induction d with
  | nil => simp [pySet, pyGet, List.find?]
  | cons kv rest ih =>
    by_cases h : kv.1 = k
    · simp [pySet, h, pyGet, List.find?]
    · simpa [pySet, h, pyGet, List.find?] using ih

theorem foldl_invariant {σ α : Type _} (f : σ → α → σ) (I : σ → Prop)
    (hstep : ∀ s a, I s → I (f s a)) :
    ∀ (l : List α) (s : σ), I s → I (l.foldl f s)
  | [], _, h => h
  | a :: l, s, h => foldl_invariant f I hstep l (f s a) (hstep s a h)

theorem flushBefore_append (A B : List Ev)
    (hA : FlushBeforeCheckpoint A) (hB : FlushBeforeCheckpoint B) :
    FlushBeforeCheckpoint (A ++ B) := by
  intro i d hd
  by_cases hi : i < A.length
  · rw [List.get?_append hi] at hd
    obtain ⟨j, n, rfl, hj, hn⟩ := hA i d hd
    refine ⟨j, n, rfl, ?_, hn⟩
    rw [List.get?_append (by omega)]
    exact hj
  · push_neg at hi
    rw [List.get?_append_right hi] at hd
    obtain ⟨j, n, hij, hj, hn⟩ := hB (i - A.length) d hd
    refine ⟨A.length + j, n, by omega, ?_, hn⟩
    rw [List.get?_append_right (by omega),
      show A.length + j - A.length = j from by omega]
    exact hj

theorem flushBefore_of_no_ckpt (l : List Ev)
    (h : ∀ d, Ev.writeCheckpoint d ∉ l) : FlushBeforeCheckpoint l := by
  intro i d hd
  exact absurd (List.get?_mem hd) (h d)

theorem flushBefore_flush_ckpt (n : Nat) (d : Dict)
    (h : pyGet d "paragraph" 0 ≤ n) :
    FlushBeforeCheckpoint [Ev.flushDoc n, Ev.writeCheckpoint d] := by
  intro i e he
  match i with
  | 0 => simp [List.get?] at he
  | 1 =>
    have hde : Ev.writeCheckpoint d = Ev.writeCheckpoint e := by
      simpa [List.get?] using he
    injection hde with hde
    subst hde
    exact ⟨0, n, rfl, rfl, h⟩
  | (k + 2) => simp [List.get?] at he

namespace DeepSeekDocx

theorem flushBefore_stepEvents (idx : Nat) (para : Paragraph) (wp : Dict)
    (h : pyGet wp "paragraph" 0 ≤ idx) :
    FlushBeforeCheckpoint (stepEvents idx para wp) := by
  unfold stepEvents
  refine flushBefore_append _ _ (flushBefore_append _ _ ?_ ?_) ?_
  · exact flushBefore_of_no_ckpt _ (by intro d; simp)
  · split
    · exact flushBefore_of_no_ckpt _ (by intro d; simp)
    · exact flushBefore_of_no_ckpt _ (by intro d; simp)
  · split
    · exact flushBefore_flush_ckpt idx wp h
    · exact flushBefore_of_no_ckpt _ (by intro d; simp)

theorem stepEvents_ckpt_mem (idx : Nat) (para : Paragraph) (wp : Dict) (d : Dict)
    (h : Ev.writeCheckpoint d ∈ stepEvents idx para wp) : d = wp := by
  unfold stepEvents at h
  rcases List.mem_append.1 h with h | h
  · rcases List.mem_append.1 h with h | h
    · simp at h
    · split at h <;> simp at h
  · split at h
    · simp at h
      exact h
    · simp at h

theorem paraStep_writerStable (wp : Dict) (st : PState) (ip : Nat × Paragraph)
    (h : WriterProgressStable wp st) :
    WriterProgressStable wp (paraStep st ip) := by
  obtain ⟨h1, h2⟩ := h
  unfold paraStep
  split
  · exact ⟨h1, h2⟩
  · refine ⟨h1, ?_⟩
    intro d hd
    rcases List.mem_append.1 hd with hd | hd
    · exact h2 d hd
    · exact (stepEvents_ckpt_mem _ _ _ d hd).trans h1

theorem paraStep_c4 (wp : Dict) (st : PState) (ip : Nat × Paragraph)
    (h : WriterProgressStable wp st
      ∧ pyGet wp "paragraph" 0 ≤ pyGet st.progress "paragraph" 0
      ∧ FlushBeforeCheckpoint st.events) :
    WriterProgressStable wp (paraStep st ip)
      ∧ pyGet wp "paragraph" 0 ≤ pyGet (paraStep st ip).progress "paragraph" 0
      ∧ FlushBeforeCheckpoint (paraStep st ip).events := by
  obtain ⟨hw, hle, hfb⟩ := h
  refine ⟨paraStep_writerStable wp st ip hw, ?_, ?_⟩
  · unfold paraStep
    split
    · exact hle
    · rename_i hskip
      have hidx : pyGet st.progress "paragraph" 0 < ip.1 := Nat.lt_of_not_le hskip
      show pyGet wp "paragraph" 0
        ≤ pyGet (if ip.1 % SAVE_INTERVAL = 0
            then pySet st.progress "paragraph" ip.1 else st.progress) "paragraph" 0
      split
      · rw [pyGet_pySet_self]
        omega
      · exact hle
  · unfold paraStep
    split
    · exact hfb
    · rename_i hskip
      have hidx : pyGet st.progress "paragraph" 0 < ip.1 := Nat.lt_of_not_le hskip
      show FlushBeforeCheckpoint (st.events ++ stepEvents ip.1 ip.2 st.writerProgress)
      refine flushBefore_append _ _ hfb (flushBefore_stepEvents _ _ _ ?_)
      rw [hw.1]
      omega

theorem process_paragraphs_writerStable (progress0 wp : Dict) (file0 : Option Dict)
    (doc : List Paragraph) :
    WriterProgressStable wp (process_paragraphs progress0 wp file0 doc) := by
  unfold process_paragraphs
  exact foldl_invariant paraStep (WriterProgressStable wp)
    (paraStep_writerStable wp) _ _ ⟨rfl, by intro d hd; simp at hd⟩

theorem process_paragraphs_flushBefore (progress0 wp : Dict) (file0 : Option Dict)
    (doc : List Paragraph)
    (h : pyGet wp "paragraph" 0 ≤ pyGet progress0 "paragraph" 0) :
    FlushBeforeCheckpoint (process_paragraphs progress0 wp file0 doc).events := by
  unfold process_paragraphs
  exact (foldl_invariant paraStep
    (fun st => WriterProgressStable wp st
      ∧ pyGet wp "paragraph" 0 ≤ pyGet st.progress "paragraph" 0
      ∧ FlushBeforeCheckpoint st.events)
    (paraStep_c4 wp) _ _
    ⟨⟨rfl, by intro d hd; simp at hd⟩, h,
      by intro i d hd; simp [List.get?] at hd⟩).2.2

end DeepSeekDocx

/-- C4: in every paragraph-processing run, each periodic persist step
writes the working document (`writer.save`) before the checkpoint file
(`writer.save_progress`): every checkpoint write in the event trace is
immediately preceded by a document flush, and the paragraph offset the
written checkpoint records is at most the offset that flush covered —
never higher.  The hypothesis relates the writer's loaded dict to `main`'s
starting dict; in the source both are parsed from the same checkpoint file
(equal), or the writer holds the zero-valued default on a fresh start. -/
theorem claim_C4 (progress0 wp : Dict) (file0 : Option Dict) (doc : List Paragraph)
    (h : pyGet wp "paragraph" 0 ≤ pyGet progress0 "paragraph" 0) :
    FlushBeforeCheckpoint
      (DeepSeekDocx.process_paragraphs progress0 wp file0 doc).events :=
  DeepSeekDocx.process_paragraphs_flushBefore progress0 wp file0 doc h

/-- C4 witness: the flush-before-checkpoint property instantiated on a
fresh 12-paragraph run. -/
theorem claim_C4_witness :
    FlushBeforeCheckpoint
      (DeepSeekDocx.process_paragraphs freshProgress
        (DeepSeekDocx.load_progress none) none demoDoc).events :=
  claim_C4 freshProgress (DeepSeekDocx.load_progress none) none demoDoc (by decide)

/-- C10: in every paragraph-processing run, the writer's `self.progress`
dict still equals whatever `_load_progress` returned at construction, and
every `save_progress` call persisted exactly those loaded contents — the
loop's updated counters live in `main`'s separate `progress` dict, which
`save_progress` never writes. -/
theorem claim_C10 (progress0 wp : Dict) (file0 : Option Dict)
    (doc : List Paragraph) :
    WriterProgressStable wp
      (DeepSeekDocx.process_paragraphs progress0 wp file0 doc) :=
  DeepSeekDocx.process_paragraphs_writerStable progress0 wp file0 doc

/-- C10 witness: on the fresh 12-paragraph run the writer's dict is still
the loaded default, and the checkpoint write that actually occurs in that
run carried exactly the loaded default contents. -/
theorem claim_C10_witness :
    (DeepSeekDocx.process_paragraphs freshProgress (DeepSeekDocx.load_progress none)
        none demoDoc).writerProgress = DeepSeekDocx.load_progress none
    ∧ ([("processed_para", 0), ("processed_tables", 0)] : Dict)
        = DeepSeekDocx.load_progress none := by
  refine ⟨(claim_C10 freshProgress (DeepSeekDocx.load_progress none) none demoDoc).1,
    (claim_C10 freshProgress (DeepSeekDocx.load_progress none) none demoDoc).2
      [("processed_para", 0), ("processed_tables", 0)] ?_⟩
  decide

/-- C1 (code evaluation): with a deterministic stub backend that fails
transiently on every call, `translate_text_with_retry` makes exactly 1
attempt — not 3 — and already returns the sentinel string on that first
attempt, because `translate_text` converts the raised failure into a
normal return value that tenacity counts as success.  The retry machinery
itself is configured for a ceiling of 3 attempts (shown on a body that
really raises) with the exponential waits 2, 4 (base 2, doubling, cap 10),
but it is unreachable for translation failures. -/
theorem claim_C1_eval :
    DeepSeekDocx.translate_text_with_retry (fun _ _ => Except.error "boom") "x"
      = (Except.ok "[Translation Error: boom]", 1)
    ∧ DeepSeekDocx.tenacityGo (fun _ => Except.error "boom") 1
        (DeepSeekDocx.STOP_AFTER_ATTEMPT - 1) = (Except.error "boom", 3)
    ∧ DeepSeekDocx.wait_exponential 1 2 10 1 = 2
    ∧ DeepSeekDocx.wait_exponential 1 2 10 2 = 4
    ∧ DeepSeekDocx.wait_exponential 1 2 10 5 = 10
    ∧ (1 : Nat) ≠ 3 :=
  ⟨rfl, rfl, rfl, rfl, rfl, by decide⟩

/-- C2 (code evaluation): crash simulation.  Phase 1 is a fresh run over
the first 10 paragraphs of `demoDoc` (killed right after the flush at
paragraph 10): the checkpoint file it leaves behind is the writer's
*loaded* default dict `{'processed_para': 0, 'processed_tables': 0}`, in
which the key `'paragraph'` that both `main` and the skip test read does
not even exist (`progress['paragraph']` raises `KeyError`;
`progress.get('paragraph', 0)` yields 0).  Phase 2, restarted from that
file, therefore re-invokes the translator starting at paragraph 1 — and
re-translates paragraph 10 — instead of resuming at paragraph 11. -/
theorem claim_C2_eval :
    demoPhase1.checkpointFile = some [("processed_para", 0), ("processed_tables", 0)]
    ∧ pyIndex [("processed_para", 0), ("processed_tables", 0)] "paragraph" = none
    ∧ pyGet [("processed_para", 0), ("processed_tables", 0)] "paragraph" 0 = 0
    ∧ demoPhase2.events.take 1 = [Ev.translate 1 "t1"]
    ∧ Ev.translate 10 "t10" ∈ demoPhase2.events := by
  refine ⟨rfl, rfl, rfl, rfl, by decide⟩

/-- C3 (code evaluation): when a run aborts with an unrecoverable error
while a checkpoint file exists, `main`'s abort handler prints that the
progress was saved — and the `finally` block then deletes the checkpoint
file anyway, so nothing is retained for resume.  The claim that only a
fully completed run clears the checkpoint is false: every exit path
clears it. -/
theorem claim_C3_eval :
    (DeepSeekDocx.main_epilogue (DeepSeekDocx.RunResult.interrupted "disk full")
        (some [("paragraph", 10), ("table", 0)])).2 = none
    ∧ ("当前进度已保存至 translation_progress.json")
        ∈ (DeepSeekDocx.main_epilogue (DeepSeekDocx.RunResult.interrupted "disk full")
            (some [("paragraph", 10), ("table", 0)])).1 := by
  refine ⟨rfl, by decide⟩

/-- C7 (counterexample): the DeepSeek variant of `translate_text` has no
empty-text short-circuit: on the empty string it still makes one network
call, not zero. -/
theorem claim_C7_counterexample :
    (DeepSeekDocx.translate_text (fun _ => Except.ok "Hello") "").2 = 1
    ∧ (1 : Nat) ≠ 0 :=
  ⟨rfl, by decide⟩

/-- C7 (amended): in the `google_translate.py` variant, every input text
that is empty or whitespace-only short-circuits to an empty result with
zero network calls; the `deep_seek_translate_docx.py` variant issues the
backend call even for empty input. -/
theorem claim_C7_amended (call : String → Except String String) (text : String)
    (h : pyStrip text = "") :
    GoogleTranslate.translate_text call text = ("", 0) := by
  unfold GoogleTranslate.translate_text
  rw [if_pos h]

/-- C7 witness: the amended theorem applied to a whitespace-only input and
a backend that would fail if consulted. -/
theorem claim_C7_witness :
    (pyStrip "  " = "")
    ∧ GoogleTranslate.translate_text (fun _ => Except.error "net down") "  "
        = ("", 0) :=
  ⟨by decide, claim_C7_amended (fun _ => Except.error "net down") "  " (by decide)⟩

/-! ## Merger lemmas -/

namespace MergeDocx

theorem perm_insertByKey (key : α → Nat) (x : α) (l : List α) :
    (insertByKey key x l).Perm (x :: l) := by
  induction l with
  | nil => exact List.Perm.refl _
  | cons y ys ih =>
    by_cases h : key y ≤ key x
    · rw [insertByKey, if_pos h]
      exact (ih.cons y).trans (List.Perm.swap x y ys)
    · rw [insertByKey, if_neg h]

theorem perm_sortByKey (key : α → Nat) (l : List α) :
    (sortByKey key l).Perm l := by
  induction l with
  | nil => exact List.Perm.refl _
  | cons x xs ih =>
    exact (perm_insertByKey key x (sortByKey key xs)).trans (ih.cons x)

theorem mem_insertByKey (key : α → Nat) (x z : α) (l : List α) :
    z ∈ insertByKey key x l ↔ z = x ∨ z ∈ l := by
  rw [(perm_insertByKey key x l).mem_iff, List.mem_cons]

theorem sorted_insertByKey (key : α → Nat) (x : α) (l : List α)
    (h : l.Pairwise (fun a b => key a ≤ key b)) :
    (insertByKey key x l).Pairwise (fun a b => key a ≤ key b) := by
  induction l with
  | nil => simp [insertByKey]
  | cons y ys ih =>
    rw [List.pairwise_cons] at h
    obtain ⟨hy, hys⟩ := h
    by_cases hc : key y ≤ key x
    · rw [insertByKey, if_pos hc, List.pairwise_cons]
      refine ⟨?_, ih hys⟩
      intro z hz
      rcases (mem_insertByKey key x z ys).1 hz with rfl | hz
      · exact hc
      · exact hy z hz
    · rw [insertByKey, if_neg hc, List.pairwise_cons]
      have hxy : key x ≤ key y := Nat.le_of_lt (Nat.lt_of_not_le hc)
      refine ⟨?_, List.pairwise_cons.2 ⟨hy, hys⟩⟩
      intro z hz
      rcases List.mem_cons.1 hz with rfl | hz
      · exact hxy
      · exact hxy.trans (hy z hz)

theorem sorted_sortByKey (key : α → Nat) (l : List α) :
    (sortByKey key l).Pairwise (fun a b => key a ≤ key b) := by
  induction l with
  | nil => simp [sortByKey]
  | cons x xs ih => exact sorted_insertByKey key x (sortByKey key xs) ih

theorem merge_docx_eq_intersperse (fs : List (Artifact α)) :
    merge_docx fs =
      ((fs.map (fun f => f.body.map MergedElem.content)).intersperse
        [MergedElem.pageBreak]).flatten := by
  induction fs with
  | nil => rfl
  | cons f rest ih =>
    cases rest with
    | nil => simp [merge_docx, List.intersperse]
    | cons g rest2 =>
      rw [show merge_docx (f :: g :: rest2)
          = f.body.map MergedElem.content
            ++ MergedElem.pageBreak :: merge_docx (g :: rest2) from rfl, ih]
      simp [List.intersperse]

theorem countP_content_map (l : List α) :
    (l.map (MergedElem.content (α := α))).countP MergedElem.isPageBreakElem = 0 := by
  induction l with
  | nil => rfl
  | cons x xs ih =>
    rw [List.map_cons, List.countP_cons]
    simp [MergedElem.isPageBreakElem, ih]

theorem countP_merge_docx (fs : List (Artifact α)) (h : fs ≠ []) :
    (merge_docx fs).countP MergedElem.isPageBreakElem = fs.length - 1 := by
  induction fs with
  | nil => exact absurd rfl h
  | cons f rest ih =>
    cases rest with
    | nil =>
      show (f.body.map MergedElem.content).countP MergedElem.isPageBreakElem = 0
      exact countP_content_map f.body
    | cons g rest2 =>
      rw [show merge_docx (f :: g :: rest2)
          = f.body.map MergedElem.content
            ++ MergedElem.pageBreak :: merge_docx (g :: rest2) from rfl]
      rw [List.countP_append, List.countP_cons, countP_content_map,
        ih (by simp)]
      simp [MergedElem.isPageBreakElem]

end MergeDocx

/-- C8: the Merger sorts the artifacts ascending by the numeric page
number extracted from the `page-<n>_translated` token of the file name
(`page-2` before `page-10`, numerically), keeping every artifact (the
sorted list is a permutation of the input); a missing or unparseable
token ranks as 0; and the merged output is exactly the sorted bodies
concatenated with one page break between consecutive artifacts and none
after the last (intersperse normal form; for `n` artifacts exactly
`n - 1` page breaks are inserted). -/
theorem claim_C8 {α : Type} (files : List (Artifact α)) (hne : files ≠ []) :
    (MergeDocx.sortFiles files).Pairwise
      (fun a b => MergeDocx.get_page_number a.path ≤ MergeDocx.get_page_number b.path)
    ∧ (MergeDocx.sortFiles files).Perm files
    ∧ MergeDocx.merge_docx (MergeDocx.sortFiles files)
        = (((MergeDocx.sortFiles files).map
            (fun f => f.body.map MergedElem.content)).intersperse
              [MergedElem.pageBreak]).flatten
    ∧ (MergeDocx.merge_docx (MergeDocx.sortFiles files)).countP
        MergedElem.isPageBreakElem = files.length - 1
    ∧ (∀ p : String, MergeDocx.pageSearch (MergeDocx.basename p).toList = none →
        MergeDocx.get_page_number p = 0) := by
  have hperm : (MergeDocx.sortFiles files).Perm files :=
    MergeDocx.perm_sortByKey (fun f : Artifact α => MergeDocx.get_page_number f.path) files
  refine ⟨MergeDocx.sorted_sortByKey _ files, hperm, ?_, ?_, ?_⟩
  · exact MergeDocx.merge_docx_eq_intersperse _
  · rw [MergeDocx.countP_merge_docx _
      (fun hh => hne (List.Perm.eq_nil ((hh ▸ hperm).symm)))]
    rw [hperm.length_eq]
  · intro p hp
    unfold MergeDocx.get_page_number
    rw [hp]

/-- C8 witness: the Merger theorem applied to four concrete artifacts
(`page-10`, `page-2`, `page-1` under a directory, and one unparseable
name): the sort puts the unparseable name first (rank 0) and orders
`page-2` before `page-10` numerically; the merge of the four artifacts
contains exactly three page breaks. -/
theorem claim_C8_witness :
    (MergeDocx.sortFiles demoArts).map Artifact.path
      = ["misc.docx", "out/page-1_translated_1-5.docx",
         "page-2_translated_6-10.docx", "page-10_translated_46-50.docx"]
    ∧ (MergeDocx.sortFiles demoArts).Perm demoArts
    ∧ (MergeDocx.merge_docx (MergeDocx.sortFiles demoArts)).countP
        MergedElem.isPageBreakElem = 3 := by
  refine ⟨by decide, (claim_C8 demoArts (by decide)).2.1, ?_⟩
  exact (claim_C8 demoArts (by decide)).2.2.2.1

/-- C9: with zero matching artifacts the Merger's `main` reports the
condition and exits with code 1 before producing any merged output; with
at least one artifact it produces the merged document. -/
theorem claim_C9 {α : Type} (files : List (Artifact α)) :
    (files = [] → MergeDocx.main files = Except.error 1)
    ∧ (files ≠ [] →
        MergeDocx.main files
          = Except.ok (MergeDocx.merge_docx (MergeDocx.sortFiles files))) := by
  constructor
  · intro h
    subst h
    rfl
  · intro h
    unfold MergeDocx.main
    rw [if_neg (by simpa [List.isEmpty_iff] using h)]

/-- C9 witness: the empty-directory case aborts with exit code 1 and the
four-artifact case merges successfully. -/
theorem claim_C9_witness :
    MergeDocx.main ([] : List (Artifact Nat)) = Except.error 1
    ∧ MergeDocx.main demoArts
        = Except.ok (MergeDocx.merge_docx (MergeDocx.sortFiles demoArts)) :=
  ⟨(claim_C9 ([] : List (Artifact Nat))).1 rfl, (claim_C9 demoArts).2 (by decide)⟩
